import Mathlib

/-!
Shallow embedding of the statistical core of `captoolkit/crosscal.py` and
verification of the coverage gate, the robust solver, the residual
cross-calibration, the binning machinery and the seasonal normalization.

Modelling conventions.
IEEE floats are modelled by exact rationals; `Option Rat` models a float
value that may be NaN (`none` stands for NaN), following the NaN-as-missing
convention of the source.  Any comparison against NaN is false and any
arithmetic with NaN yields NaN, as in NumPy.  `np.arange(a, b, d)` with a
positive step `d` has exactly `max(ceil((b - a)/d), 0)` elements, which is
the length formula embedded below.
-/

/-- NaN-propagating binary operation on `Option Rat` (NumPy arithmetic). -/
def nop2 (f : Rat → Rat → Rat) : Option Rat → Option Rat → Option Rat
  | some a, some b => some (f a b)
  | _, _ => none

/-- NaN-propagating addition. -/
def nadd : Option Rat → Option Rat → Option Rat := nop2 (· + ·)

/-- NaN-propagating subtraction. -/
def nsub : Option Rat → Option Rat → Option Rat := nop2 (· - ·)

/-- NaN-propagating multiplication. -/
def nmul : Option Rat → Option Rat → Option Rat := nop2 (· * ·)

/-- Strict `<` with NumPy NaN semantics: a comparison against NaN is false. -/
def nltb : Option Rat → Option Rat → Bool
  | some a, some b => decide (a < b)
  | _, _ => false

/-- Number of finite (non-NaN) entries of an array. -/
def countSome (l : List (Option Rat)) : Nat := (l.filterMap id).length

/-- Embedding of `np.sum`: NaN as soon as one entry is NaN. -/
def sumOpt (l : List (Option Rat)) : Option Rat := l.foldr nadd (some 0)

/-- Embedding of `np.nanmean`: mean of the finite entries, NaN if none. -/
def nanmean (l : List (Option Rat)) : Option Rat :=
  let v := l.filterMap id
  if v.length = 0 then none else some (v.sum / v.length)

/-- Median of an already sorted finite list, with the NumPy convention that
an even length takes the mean of the two central order statistics. -/
def medianSorted (s : List Rat) : Rat :=
  if s.length % 2 = 1 then s.getD (s.length / 2) 0
  else (s.getD (s.length / 2 - 1) 0 + s.getD (s.length / 2) 0) / 2

/-- Embedding of `np.nanmedian`: median of the finite entries, NaN if none. -/
def nanmedian (l : List (Option Rat)) : Option Rat :=
  let v := l.filterMap id
  if v.isEmpty then none
  else some (medianSorted (List.insertionSort (· ≤ ·) v))

/-- Embedding of `mad_std` (crosscal.py lines 303-305): robust standard
deviation `1.4826 * np.nanmedian(np.abs(x - np.nanmedian(x)))`. -/
def mad_std (l : List (Option Rat)) : Option Rat :=
  let m := nanmedian l
  let devs := l.map (fun o => nop2 (fun a b => |a - b|) o m)
  (nanmedian devs).map (fun d => (14826 / 10000 : Rat) * d)

/-- Embedding of `np.nanvar`, the variance of the finite entries (NaN when
there is none).  The source uses `np.nanstd`, the square root of this
quantity; the square root of a rational is irrational in general, so the
development carries the variance and phrases every statement about a
nanstd through its square (both sides of such comparisons are
non-negative, and the square root is strictly monotone, so nothing is
lost). -/
def nanvar (l : List (Option Rat)) : Option Rat :=
  let v := l.filterMap id
  if v.length = 0 then none
  else
    let mu := v.sum / v.length
    some ((v.map (fun a => (a - mu) ^ 2)).sum / v.length)

/-- Length of `np.arange(a, b, d)` for a step `d > 0`. -/
def arangeLen (a b d : Rat) : Nat := (⌈(b - a) / d⌉).toNat

/-- Embedding of `np.arange(a, b, d)`: the points `a + k * d` for
`k < arangeLen a b d`. -/
def arange (a b d : Rat) : List Rat :=
  (List.range (arangeLen a b d)).map (fun k : Nat => a + (k : Rat) * d)

/-- Smallest element of a list (`np.min`; the source never takes the
minimum of an empty array outside a `try` block). -/
def listMin (l : List Rat) : Rat := l.foldr min (l.headD 0)

/-- Largest element of a list (`np.max`). -/
def listMax (l : List Rat) : Rat := l.foldr max (l.headD 0)

/-- Output record of `binning` (crosscal.py lines 187-212). -/
structure BinningOut where
  xb : List Rat
  yb : List (Option Rat)
  ebSq : List (Option Rat)
  nb : List (Option Rat)
  sb : List (Option Rat)

/-- Values whose abscissa falls in the closed interval `[lo, hi]`, the bin
test `(x >= bins[i]) & (x <= bins[i + 1])` of the source: both edges are
included, so a value sitting exactly on a shared edge belongs to the bins
on both sides of it. -/
def binMembers (x : List Rat) (y : List (Option Rat)) (lo hi : Rat) :
    List (Option Rat) :=
  ((x.zip y).filter (fun p => decide (lo ≤ p.1) && decide (p.1 ≤ hi))).map
    (fun p => p.2)

/-- Per-bin body of the loop of `binning` (crosscal.py lines 198-210) over
the bin `[lo, hi]`: an empty bin leaves NaN everywhere, a non-empty bin
yields median, squared nanstd, raw count and sum of the selected rows. -/
def binningCell (x : List Rat) (y : List (Option Rat)) (lo hi : Rat) :
    Option Rat × Option Rat × Option Rat × Option Rat :=
  let ybv := binMembers x y lo hi
  if ybv.isEmpty then (none, none, none, none)
  else (nanmedian ybv, nanvar ybv, some ((ybv.length : Rat)), sumOpt ybv)

/-- Embedding of `binning` (crosscal.py lines 187-212): fixed-width binning
of `y` against `x`.  The bins are the closed intervals between consecutive
entries of `np.arange(xmin, xmax + dx, dx)`.  A bin with no selected row
keeps NaN in every per-bin output; otherwise `yb` is the nanmedian, `ebSq`
the square of `eb = np.nanstd(ybv)` (see `nanvar`), `nb` the raw count
`len(ybv)` of selected rows and `sb` the plain `np.sum`. -/
def binning (x : List Rat) (y : List (Option Rat)) (xmin xmax dx : Rat) :
    BinningOut :=
  let edges := arange xmin (xmax + dx) dx
  let nbin := edges.length - 1
  { xb := (arange xmin xmax dx).map (fun t => t + dx / 2)
    yb := (List.range nbin).map (fun i =>
      (binningCell x y (edges.getD i 0) (edges.getD (i + 1) 0)).1)
    ebSq := (List.range nbin).map (fun i =>
      (binningCell x y (edges.getD i 0) (edges.getD (i + 1) 0)).2.1)
    nb := (List.range nbin).map (fun i =>
      (binningCell x y (edges.getD i 0) (edges.getD (i + 1) 0)).2.2.1)
    sb := (List.range nbin).map (fun i =>
      (binningCell x y (edges.getD i 0) (edges.getD (i + 1) 0)).2.2.2) }

/-- Output record of `binning2` (crosscal.py lines 685-745) on the
`interp=False` paths used by the claims. -/
structure Binning2Out where
  xb : List Rat
  yb : List (Option Rat)
  eb : List (Option Rat)
  nb : List (Option Rat)
  sb : List (Option Rat)

/-- Per-step body of the loop of `binning2` (crosscal.py lines 709-734)
over the bin `[t1, t1 + window]`: an empty bin records only the bin
center, a non-empty bin yields the median or the kernel-weighted mean, the
`mad_std` spread, the finite count and the sum. -/
def binning2Cell (weight : Option (Rat → Rat)) (median : Bool)
    (x : List Rat) (y : List (Option Rat)) (window : Rat) (t1 : Rat) :
    Rat × Option Rat × Option Rat × Option Rat × Option Rat :=
  let t2 := t1 + window
  let sel := (x.zip y).filter (fun p => decide (t1 ≤ p.1) && decide (p.1 ≤ t2))
  let center := (t1 + t2) / 2
  if sel.isEmpty then
    (center, (none : Option Rat), (none : Option Rat), (none : Option Rat),
     (none : Option Rat))
  else
    let ybv := sel.map (fun p => p.2)
    let wbv : List Rat :=
      match weight with
      | some w => sel.map (fun p => w (p.1 - center))
      | none => sel.map (fun _ => 1)
    let val : Option Rat :=
      if median then nanmedian ybv
      else
        let num := ((wbv.zip ybv).map (fun p =>
          match p.2 with
          | some b => p.1 * b
          | none => 0)).sum
        some (num / wbv.sum)
    (center, val, mad_std ybv, some ((countSome ybv : Rat)), sumOpt ybv)

/-- Embedding of `binning2` (crosscal.py lines 685-745), `interp=False`
path: overlapping-window binning.  `weight` models the optional
exponential kernel `np.exp(-dxv / decay)`; the exponential is
transcendental, so the kernel is carried as an oracle function of the
offset `dxv` from the bin center (with the NumPy kernel all weights are
positive, so the weighted-mean denominator never vanishes).  Every step
`ti` of `np.arange(xmin, xmax, dx)` produces one bin spanning
`[ti, ti + window]`; a bin with no selected row keeps `yb = NaN` but still
records the bin center `ti + window/2` in `xb`. -/
def binning2 (weight : Option (Rat → Rat)) (median : Bool)
    (x : List Rat) (y : List (Option Rat)) (xmin xmax dx window : Rat) :
    Binning2Out :=
  let steps := arange xmin xmax dx
  { xb := steps.map (fun t => (binning2Cell weight median x y window t).1)
    yb := steps.map (fun t => (binning2Cell weight median x y window t).2.1)
    eb := steps.map (fun t => (binning2Cell weight median x y window t).2.2.1)
    nb := steps.map (fun t => (binning2Cell weight median x y window t).2.2.2.1)
    sb := steps.map (fun t =>
      (binning2Cell weight median x y window t).2.2.2.2) }

/-- Coverage statistics of one grid cell, as computed by `main`
(crosscal.py lines 1254-1293): observation count, time span, distinct
mission count and temporal sampling fraction, keeping their initial values
(`nobs = 0`, `dt = 0`, `nsen = 0`, `npct = 1`) on the paths where the
inner loop bails out early. -/
structure CellStats where
  nobs : Nat
  dt : Rat
  nsen : Nat
  npct : Rat

/-- Embedding of the per-cell constraint computation of `main`
(crosscal.py lines 1254-1293): the sampling fraction is the share of
populated one-month bins of `binning(time, time, min, max, 1/12)`, and it
stays at its initial value 1 when the neighborhood or the bin vector is
empty. -/
def cellStats (times : List Rat) (modes : List Int) : CellStats :=
  if times.isEmpty then ⟨0, 0, 0, 1⟩
  else
    let nobs := times.length
    let dt := listMax times - listMin times
    let nsen := modes.dedup.length
    let tsample :=
      (binning times (times.map some) (listMin times) (listMax times) (1 / 12)).yb
    if tsample.length = 0 then ⟨nobs, dt, nsen, 1⟩
    else ⟨nobs, dt, nsen, (countSome tsample : Rat) / (tsample.length : Rat)⟩

/-- Embedding of the final coverage test of `main` (crosscal.py line 1303):
`if (nobs < nlim) or (dt < dtlim) or (npct < 0.0): continue`; the cell
proceeds to fitting exactly when the test does not fire. -/
def cellProceeds (s : CellStats) (nlim : Nat) (dtlim : Rat) : Bool :=
  !(decide (s.nobs < nlim) || decide (s.dt < dtlim) || decide (s.npct < 0))

/-- Reading of the coverage gate following the words of the specification
(section 4.2): the cell proceeds only when all four conditions hold.  Kept
for comparison against `cellProceeds`, the gate of the source. -/
def cellProceedsSpec (s : CellStats) (nlim : Nat) (dtlim : Rat) (nmlim : Nat) :
    Bool :=
  decide (s.nobs > nlim) && decide (s.dt > dtlim) && decide (s.nsen ≥ nmlim) &&
    decide (s.npct > 7 / 10)

/-- Embedding of the footprint restriction of `main` (crosscal.py lines
1317-1319): the observations falling within the half-width footprint of
the cell centered at `(xc, yc)`. -/
def footprintIdx (xs ys : List Rat) (xc yc dx dy : Rat) : List (Rat × Rat) :=
  (xs.zip ys).filter (fun p =>
    decide (xc - dx / 2 ≤ p.1) && decide (p.1 ≤ xc + dx / 2) &&
    decide (yc - dy / 2 ≤ p.2) && decide (p.2 ≤ yc + dy / 2))

/-- Embedding of `main` line 1322: `if len(i_upd) == 5: continue`, the test
deciding whether the cell is dropped after the footprint restriction. -/
def footprintSkip (xs ys : List Rat) (xc yc dx dy : Rat) : Bool :=
  (footprintIdx xs ys xc yc dx dy).length == 5

/-- Dot product of two rational vectors. -/
def dotR (a b : List Rat) : Rat := ((a.zip b).map (fun p => p.1 * p.2)).sum

/-- Loop body of `lsq_solve` (crosscal.py lines 53-102).  The call
`np.linalg.lstsq` is an external LAPACK routine and is carried as the
oracle `solveStep`; the control flow around it is embedded as written,
with `k = len(X.T)` the number of unknown coefficients.  The accumulator
`prev` holds the Python local `x`: `none` means `x` was never assigned, so
that leaving the loop with `prev = none` models the `UnboundLocalError`
raised by `return x`. -/
def lsqLoop (solveStep : List (List Rat) → List Rat → List Rat) (k : Nat)
    (nSigma threshold : Rat) :
    Nat → List (List Rat) → List (Option Rat) → Option (List Rat) →
      Option (List Rat)
  | 0, _, _, prev => prev
  | fuel + 1, rows, y, prev =>
    let keep := (rows.zip y).filter (fun p => p.2.isSome)
    let rowsV := keep.map (fun p => p.1)
    let yV := keep.map (fun p => p.2.getD 0)
    if yV.length > k + 1 then
      let c := solveStep rowsV yV
      let res := (yV.zip rowsV).map (fun p => p.1 - dotR p.2 c)
      let cutoff := mad_std (res.map some)
      let yMarked := (yV.zip res).map (fun p =>
        if (match cutoff with
            | some m => decide (|p.2| > nSigma * m)
            | none => false) || decide (|p.2| > threshold)
        then none else some p.1)
      if countSome yMarked = yV.length then some c
      else lsqLoop solveStep k nSigma threshold fuel rowsV yMarked (some c)
    else prev

/-- Embedding of `lsq_solve` (crosscal.py lines 53-102): iterative robust
least squares with MAD-and-threshold outlier rejection; the while loop
`n <= n_iter` runs at most `n_iter + 1` times. -/
def lsq_solve (solveStep : List (List Rat) → List Rat → List Rat) (k : Nat)
    (rows : List (List Rat)) (y : List (Option Rat)) (nIter : Nat)
    (nSigma threshold : Rat) : Option (List Rat) :=
  lsqLoop solveStep k nSigma threshold (nIter + 1) rows y none

/-- Embedding of the effective sample size of `bin_mission`
(crosscal.py lines 146-159): `n_eff = (n_dat * (1/12)) / (2 * (3/12))`
when at least one bin is populated and `1` otherwise, where `n_dat` is the
number of populated bins.  The code comment above these lines says the
de-correlation scale is 2 months. -/
def bin_mission_neff (hb : List (Option Rat)) : Rat :=
  let nDat := countSome hb
  if nDat ≠ 0 then ((nDat : Rat) * (1 / 12)) / (2 * (3 / 12)) else 1

/-- Reading of the effective sample size following the words of the
specification (section 4.6 and the glossary): a two-month de-correlation
timescale gives `n_eff = n_populated * (1/12) / (2/12) = n_populated / 2`.
Kept for comparison against `bin_mission_neff`. -/
def bin_mission_neff_spec (n : Nat) : Rat := ((n : Rat) * (1 / 12)) / (2 / 12)

/-- One observation entering `normalize_seasonal`: mission id and time. -/
structure SeasObs where
  g : Nat
  t : Rat
deriving DecidableEq

/-- Symbolic value of the non-gated seasonal correction
`(1 - a_ref/a_sat) * (c0m * sin(2*pi*t) + c1m * cos(2*pi*t))` of
`normalize_seasonal` (crosscal.py lines 935-945).  Sine, cosine and the
square roots inside the amplitudes are transcendental, so the correction
for a non-gated mission is carried symbolically through its ingredients;
the claims only concern when an entry is exactly the zero branch. -/
structure SeasTerm where
  c0m : Option Rat
  c1m : Option Rat
  aRefSq : Option Rat
  aSatSq : Option Rat
  t : Rat
deriving DecidableEq

/-- Value of one entry of `h_out` in `normalize_seasonal`: exactly zero
(the initialization kept by a `continue`) or the symbolic correction. -/
inductive SeasCorr where
  | zero : SeasCorr
  | term : SeasTerm → SeasCorr
deriving DecidableEq

/-- Squared Euclidean amplitude `c0^2 + c1^2` of a coefficient pair, with
NaN propagation. -/
def ampSq (c : Option Rat × Option Rat) : Option Rat :=
  nadd (nmul c.1 c.1) (nmul c.2 c.2)

/-- Quality gate `a_ref / a_sat > 1` of `normalize_seasonal` (crosscal.py
line 939), expressed through the squared amplitudes.  Over the reals with
NumPy semantics the test holds iff both squared amplitudes are numbers and
`aSatSq < aRefSq`: the square root is strictly monotone on non-negative
numbers; for `a_sat = 0 < a_ref` the quotient is `inf > 1` (true, and
`0 = aSatSq < aRefSq`); for `a_sat = a_ref = 0` it is `NaN > 1` (false,
and `aSatSq < aSatSq` fails); any comparison with NaN is false. -/
def seasGate (aRefSq aSatSq : Option Rat) : Bool :=
  match aRefSq, aSatSq with
  | some r, some s => decide (s < r)
  | _, _ => false

/-- Embedding of `normalize_seasonal` (crosscal.py lines 887-947): the
per-observation seasonal correction `h_out`.  `coefR` holds the
interpolated reference coefficients (the median of the first three mission
rasters) and `coefM g` the interpolated coefficients of mission `g`; the
bilinear raster interpolation `interp2d` wraps the external
`scipy.ndimage.map_coordinates` collaborator, so the interpolated values
are inputs of the embedding.  Missions below id 3 are skipped, as is any
mission whose quality gate fires; both leave the zero initialization. -/
def normalize_seasonal (coefR : Option Rat × Option Rat)
    (coefM : Nat → Option Rat × Option Rat) (obs : List SeasObs) :
    List SeasCorr :=
  obs.map (fun o =>
    if o.g < 3 then SeasCorr.zero
    else
      let aRefSq := ampSq coefR
      let aSatSq := ampSq (coefM o.g)
      if seasGate aRefSq aSatSq then SeasCorr.zero
      else SeasCorr.term ⟨(coefM o.g).1, (coefM o.g).2, aRefSq, aSatSq, o.t⟩)

/-- One observation entering `cross_calibrate`: time, post-fit residual
`dh`, and sensor-era group (the `msat` vector of main lines 1414-1420,
which is NaN for unmapped missions). -/
structure CcObs where
  t : Rat
  dh : Option Rat
  g : Option Int
deriving DecidableEq

/-- Satellite overlap windows `to` of `cross_calibrate` (crosscal.py lines
555-557), as exact rationals:
`[1995+5/12-1/2, 1996+5/12+1/2]`, `[2002+10/12-1/2, 2003+6/12+1/2]`,
`[2010+6/12-1/2, 2010+10/12+1/2]`. -/
def ccWindows : List (Rat × Rat) :=
  [(23939 / 12, 23963 / 12), (24028 / 12, 24048 / 12), (24120 / 12, 24136 / 12)]

/-- Satellite group pairs `mo` of `cross_calibrate` (lines 560-562). -/
def ccPairs : List (Int × Int) :=
  [(1, 0), (2, 1), (3, 2)]

/-- Times of the observations of group `g` inside window `w`. -/
def ccGrpT (obs : List CcObs) (w : Rat × Rat) (g : Int) : List Rat :=
  (obs.filter (fun o =>
    decide (w.1 ≤ o.t) && decide (o.t ≤ w.2) && o.g == some g)).map (fun o => o.t)

/-- Residuals of the observations of group `g` inside window `w`. -/
def ccGrpH (obs : List CcObs) (w : Rat × Rat) (g : Int) : List (Option Rat) :=
  (obs.filter (fun o =>
    decide (w.1 ≤ o.t) && decide (o.t ≤ w.2) && o.g == some g)).map (fun o => o.dh)

/-- Monthly binned series `(b0, b1)` of the two groups of overlap rule `i`
(`cross_calibrate` lines 573-587).  The result is `none` on the `except`
path of the source: `t0.min()` or `t1.max()` raises on an empty array, and
`np.ones(len(bins) - 1)` raises when the edge array is empty; every
quantity is then NaN and the rule is gated through the NaN test. -/
def ccRuleBins (obs : List CcObs) (i : Nat) :
    Option (List (Option Rat) × List (Option Rat)) :=
  let w := ccWindows.getD i (0, 0)
  let p := ccPairs.getD i (0, 0)
  let t0 := ccGrpT obs w p.1
  let t1 := ccGrpT obs w p.2
  if t0.isEmpty || t1.isEmpty then none
  else
    let tmin := listMin t0 - 1 / 12
    let tmax := listMax t1 + 1 / 12
    if arangeLen tmin (tmax + 1 / 12) (1 / 12) = 0 then none
    else
      some ((binning t0 (ccGrpH obs w p.1) tmin tmax (1 / 12)).yb,
            (binning t1 (ccGrpH obs w p.2) tmin tmax (1 / 12)).yb)

/-- Gated inter-group offset of overlap rule `i` (`cross_calibrate` lines
584-671), for the gating strictness `a = 0.0` that `main` passes at line
1423.  With `a = 0` the product `a * s` is `0` when the nanstd `s` is a
number and NaN when `s` is NaN, so only definedness of the variance
matters; note that the source computes both `s1` and the selection mask of
`n1` from `b0` (lines 585 and 587), and that both branches of the
`if i == 0` set `nlim = 1` while the first rule additionally zeroes the
four interval bounds (lines 643-647).  The if/elif cascade then forces the
offset to zero when the median difference is NaN, when `n0` or `n1` is at
most `nlim`, when the confidence intervals overlap, or when the magnitude
exceeds 10. -/
def ccRuleDiff (obs : List CcObs) (i : Nat) : Rat :=
  match ccRuleBins obs i with
  | none => 0
  | some (b0, b1) =>
    let diff := nanmedian (List.zipWith nsub b0 b1)
    let n0 := countSome b0
    let n1 := ((b0.zip b1).filter (fun p => p.1.isSome)).length
    let b0m := nanmean b0
    let b1m := nanmean b1
    let as0 := (nanvar b0).map (fun _ => (0 : Rat))
    let as1 := (nanvar b0).map (fun _ => (0 : Rat))
    let iv : Option Rat × Option Rat × Option Rat × Option Rat :=
      if i = 0 then (some 0, some 0, some 0, some 0)
      else (nsub b0m as0, nadd b0m as0, nsub b1m as1, nadd b1m as1)
    match diff with
    | none => 0
    | some d =>
      if n0 ≤ 1 || n1 ≤ 1 then 0
      else if nltb iv.2.2.1 iv.2.1 && nltb iv.1 iv.2.2.2 then 0
      else if |d| > 10 then 0
      else d

/-- Assignment `hb[mi == mo[i, 0]] = v` of `cross_calibrate` (line 674). -/
def ccAssign (obs : List CcObs) (hb : List Rat) (g : Int) (v : Rat) :
    List Rat :=
  (obs.zip hb).map (fun p => if p.1.g == some g then v else p.2)

/-- Embedding of `cross_calibrate` (crosscal.py lines 545-682): sequential
residual cross-calibration over the three overlap rules, returning the
per-observation correction vector `hb` and the success counter `flag`.
Each rule adds its gated offset to the running reference bias and assigns
the updated bias to every observation of the first group of its pair; the
counter increments whenever the gated offset is non-zero. -/
def cross_calibrate (obs : List CcObs) : List Rat × Nat :=
  let step := fun (st : List Rat × Rat × Nat) (i : Nat) =>
    let d := ccRuleDiff obs i
    (ccAssign obs st.1 (ccPairs.getD i (0, 0)).1 (st.2.1 + d),
     st.2.1 + d,
     if d ≠ 0 then st.2.2 + 1 else st.2.2)
  let fin := [0, 1, 2].foldl step (obs.map (fun _ => (0 : Rat)), 0, 0)
  (fin.1, fin.2.2)

/-! Generic list lemmas used by the claim theorems. -/

theorem getD_map_of_lt {α β : Type} (f : α → β) (l : List α) (i : Nat) (d : β)
    (d0 : α) (hi : i < l.length) : (l.map f).getD i d = f (l.getD i d0) := by
  induction l generalizing i with
  | nil => simp at hi
  | cons a t ih =>
    cases i with
    | zero => simp
    | succ n => simpa using ih n (by simpa using hi)

theorem range_map_getD {β : Type} (f : Nat → β) (n i : Nat) (d : β)
    (hi : i < n) : ((List.range n).map f).getD i d = f i := by
  induction n generalizing i with
  | zero => simp at hi
  | succ m ih =>
    rcases Nat.lt_or_ge i m with hlt | hge
    · rw [List.range_succ, List.map_append, List.getD_append]
      · exact ih i hlt
      · simpa using hlt
    · have hi' : i = m := Nat.le_antisymm (Nat.lt_succ_iff.mp hi) hge
      subst hi'
      rw [List.range_succ, List.map_append]
      rw [List.getD_eq_getElem?_getD, List.getElem?_append_right (by simp)]
      simp

theorem getD_mem_of_lt {α : Type} (l : List α) (i : Nat) (d : α)
    (hi : i < l.length) : l.getD i d ∈ l := by
  induction l generalizing i with
  | nil => simp at hi
  | cons a t ih =>
    cases i with
    | zero => simp
    | succ n => exact List.mem_cons_of_mem a (ih n (by simpa using hi))

theorem filterMap_id_map_some (l : List Rat) : (l.map some).filterMap id = l := by
  induction l with
  | nil => rfl
  | cons a t ih => simp [ih]

/-! Facts about the median helpers, used for the robust standard
deviation. -/

theorem medianSorted_nonneg (s : List Rat) (h : ∀ a ∈ s, 0 ≤ a) :
    0 ≤ medianSorted s := by
  have hget : ∀ i : Nat, 0 ≤ s.getD i 0 := by
    intro i
    rcases Nat.lt_or_ge i s.length with hi | hi
    · exact h _ (getD_mem_of_lt s i 0 hi)
    · rw [List.getD_eq_default _ _ hi]
  unfold medianSorted
  split
  · exact hget _
  · have := hget (s.length / 2 - 1)
    have := hget (s.length / 2)
    positivity

theorem medianSorted_const (s : List Rat) (c : Rat) (hne : s ≠ [])
    (h : ∀ a ∈ s, a = c) : medianSorted s = c := by
  have hlen : 0 < s.length := List.length_pos.mpr hne
  have hget : ∀ i : Nat, i < s.length → s.getD i 0 = c := by
    intro i hi
    exact h _ (getD_mem_of_lt s i 0 hi)
  unfold medianSorted
  split
  · exact hget _ (Nat.div_lt_self hlen (by norm_num))
  · have h1 : s.length / 2 < s.length := Nat.div_lt_self hlen (by norm_num)
    have h2 : s.length / 2 - 1 < s.length := lt_of_le_of_lt (Nat.sub_le _ _) h1
    rw [hget _ h1, hget _ h2]
    ring

theorem nanmedian_map_some (l : List Rat) (h : l ≠ []) :
    nanmedian (l.map some) =
      some (medianSorted (List.insertionSort (· ≤ ·) l)) := by
  unfold nanmedian
  rw [filterMap_id_map_some]
  simp [h]

theorem mad_std_map_some (l : List Rat) (h : l ≠ []) :
    mad_std (l.map some) =
      some ((14826 / 10000 : Rat) *
        medianSorted (List.insertionSort (· ≤ ·)
          (l.map (fun a =>
            |a - medianSorted (List.insertionSort (· ≤ ·) l)|)))) := by
  unfold mad_std
  dsimp only
  rw [nanmedian_map_some l h]
  have hdevs : (l.map some).map (fun o => nop2 (fun a b => |a - b|) o
        (some (medianSorted (List.insertionSort (· ≤ ·) l)))) =
      (l.map (fun a =>
        |a - medianSorted (List.insertionSort (· ≤ ·) l)|)).map some := by
    simp [List.map_map, nop2]
  rw [hdevs, nanmedian_map_some _ (by simpa using h)]
  rfl

/-- C8: for every non-empty array of finite values, `mad_std` is a number
and non-negative; it is exactly 0 on a constant array; and exactly 0 on an
array holding a single finite value. -/
theorem mad_std_props (l : List Rat) (c v : Rat) (h : l ≠ []) :
    (∃ u, mad_std (l.map some) = some u ∧ 0 ≤ u) ∧
    ((∀ a ∈ l, a = c) → mad_std (l.map some) = some 0) ∧
    mad_std [some v] = some 0 := by
  refine ⟨?_, ?_, ?_⟩
  · rw [mad_std_map_some l h]
    refine ⟨_, rfl, ?_⟩
    apply mul_nonneg (by norm_num)
    apply medianSorted_nonneg
    intro a ha
    rw [List.mem_insertionSort] at ha
    obtain ⟨b, _, rfl⟩ := List.mem_map.mp ha
    exact abs_nonneg _
  · intro hc
    rw [mad_std_map_some l h]
    have hm0 : medianSorted (List.insertionSort (· ≤ ·) l) = c := by
      apply medianSorted_const _ c
      · intro hnil
        exact h (by simpa using congrArg List.length hnil)
      · intro a ha
        exact hc a ((List.mem_insertionSort _).mp ha)
    rw [hm0]
    have hz : medianSorted (List.insertionSort (· ≤ ·)
        (l.map (fun a => |a - c|))) = 0 := by
      apply medianSorted_const _ 0
      · intro hnil
        exact h (by simpa using congrArg List.length hnil)
      · intro a ha
        rw [List.mem_insertionSort] at ha
        obtain ⟨b, hb, rfl⟩ := List.mem_map.mp ha
        rw [hc b hb]
        simp
    rw [hz, mul_zero]
  · have h1 : [some v] = [v].map some := rfl
    rw [h1, mad_std_map_some [v] (by simp)]
    simp [List.insertionSort, List.orderedInsert, medianSorted]

theorem mad_std_props_witness :
    ([(1 : Rat), 2, 4] ≠ []) ∧
    ((∃ u, mad_std ([(1 : Rat), 2, 4].map some) = some u ∧ 0 ≤ u) ∧
     ((∀ a ∈ [(1 : Rat), 2, 4], a = 3) →
       mad_std ([(1 : Rat), 2, 4].map some) = some 0) ∧
     mad_std [some (7 : Rat)] = some 0) :=
  ⟨by decide, mad_std_props [1, 2, 4] 3 7 (by decide)⟩

/-- C9: evaluation of the effective sample size of `bin_mission`.  For a
mission with 6 populated monthly bins the code yields
`n_eff = 6 * (1/12) / (2 * (3/12)) = 1`, while the two-month
de-correlation timescale announced by the code comment and the
specification yields `6 * (1/12) / (2/12) = 3`; with no populated bin the
code falls back to `n_eff = 1` as described. -/
theorem bin_mission_neff_eval :
    bin_mission_neff (List.replicate 6 (some 0)) = 1 ∧
    bin_mission_neff_spec 6 = 3 ∧
    bin_mission_neff (List.replicate 6 (some 0)) ≠ bin_mission_neff_spec 6 ∧
    bin_mission_neff (List.replicate 4 none) = 1 := by
  have h1 : bin_mission_neff (List.replicate 6 (some 0)) = 1 := by
    with_unfolding_all rfl
  have h2 : bin_mission_neff_spec 6 = 3 := by with_unfolding_all rfl
  have h3 : bin_mission_neff (List.replicate 4 none) = 1 := by
    with_unfolding_all rfl
  refine ⟨h1, h2, ?_, h3⟩
  rw [h1, h2]
  norm_num

/-- C1 counterexample: a neighborhood of exactly `nlim = 2` observations
from a single mission, spanning one year with temporal sampling fraction
1/6, proceeds through the coverage test of `main` even though the claimed
conjunction (count strictly above the threshold, at least `nmlim`
missions, sampling fraction above 0.70) evaluates to false. -/
theorem coverage_gate_counterexample :
    cellProceeds (cellStats [1992, 1993] [1, 1]) 2 0 = true ∧
    cellProceedsSpec (cellStats [1992, 1993] [1, 1]) 2 0 1 = false ∧
    (cellStats [1992, 1993] [1, 1]).npct = 1 / 6 := by
  refine ⟨by with_unfolding_all rfl, by with_unfolding_all rfl,
    by with_unfolding_all rfl⟩

theorem cellStats_npct_nonneg (times : List Rat) (modes : List Int) :
    0 ≤ (cellStats times modes).npct := by
  unfold cellStats
  split
  · norm_num
  · dsimp only
    split
    · norm_num
    · exact div_nonneg (Nat.cast_nonneg _) (Nat.cast_nonneg _)

/-- C1 amended: the cell proceeds to fitting iff the observation count is
at least the minimum-observation threshold and the time span at least the
minimum span; the distinct-mission count and the sampling fraction never
decide the outcome (the sampling clause of the final test, `npct < 0`, is
vacuous because the sampling fraction is non-negative). -/
theorem coverage_gate_amended (times : List Rat) (modes : List Int)
    (nlim : Nat) (dtlim : Rat) :
    cellProceeds (cellStats times modes) nlim dtlim =
      (decide (nlim ≤ (cellStats times modes).nobs) &&
       decide (dtlim ≤ (cellStats times modes).dt)) := by
  have h := cellStats_npct_nonneg times modes
  unfold cellProceeds
  rw [decide_eq_false (not_lt.mpr h)]
  simp [Bool.not_or, ← decide_not, not_lt]

/-- C10: after the footprint restriction, the cell is dropped exactly when
the footprint holds 5 observations; in particular footprint counts 4 and 6
pass this test. -/
theorem footprint_five_gate (xs ys : List Rat) (xc yc dx dy : Rat) :
    ((footprintIdx xs ys xc yc dx dy).length = 5 →
      footprintSkip xs ys xc yc dx dy = true) ∧
    ((footprintIdx xs ys xc yc dx dy).length = 4 ∨
     (footprintIdx xs ys xc yc dx dy).length = 6 →
      footprintSkip xs ys xc yc dx dy = false) := by
  unfold footprintSkip
  constructor
  · intro h
    rw [h]
    rfl
  · rintro (h | h) <;> rw [h] <;> rfl

theorem footprint_five_gate_witness :
    (footprintIdx [0, 0, 0, 0, 0] [0, 0, 0, 0, 0] 0 0 2 2).length = 5 ∧
    footprintSkip [0, 0, 0, 0, 0] [0, 0, 0, 0, 0] 0 0 2 2 = true :=
  ⟨by with_unfolding_all rfl,
   (footprint_five_gate [0, 0, 0, 0, 0] [0, 0, 0, 0, 0] 0 0 2 2).1
     (by with_unfolding_all rfl)⟩

theorem zip_filter_isSome_length {α : Type} (rows : List α)
    (y : List (Option Rat)) (h : rows.length = y.length) :
    ((rows.zip y).filter (fun p => p.2.isSome)).length = countSome y := by
  induction rows generalizing y with
  | nil =>
    cases y with
    | nil => rfl
    | cons o os => simp at h
  | cons r rs ih =>
    cases y with
    | nil => simp at h
    | cons o os =>
      have h2 : rs.length = os.length := by simpa using h
      cases o with
      | none =>
        simpa [countSome, List.filter_cons] using ih os h2
      | some a =>
        simpa [countSome, List.filter_cons] using ih os h2

/-- C2: whenever the number of valid (non-NaN) observations after the
initial filtering is at most the number of unknown coefficients plus one,
`lsq_solve` leaves its loop through the `else: break` branch before the
local `x` is ever assigned, so `return x` raises `UnboundLocalError`
(the `none` result of the embedding) rather than returning a clean no-fit
value. -/
theorem lsq_solve_underdetermined_unbound
    (solveStep : List (List Rat) → List Rat → List Rat) (k : Nat)
    (rows : List (List Rat)) (y : List (Option Rat)) (nIter : Nat)
    (nSigma threshold : Rat) (hlen : rows.length = y.length)
    (h : countSome y ≤ k + 1) :
    lsq_solve solveStep k rows y nIter nSigma threshold = none := by
  have hk := zip_filter_isSome_length rows y hlen
  have hnot : ¬ (countSome y > k + 1) := not_lt.mpr h
  unfold lsq_solve lsqLoop
  simp only [List.length_map, hk, hnot, if_false]

theorem lsq_solve_underdetermined_unbound_witness :
    ([[(1 : Rat), 0], [0, 1], [1, 1]].length =
      [some (1 : Rat), some 2, none].length) ∧
    countSome [some (1 : Rat), some 2, none] ≤ 2 + 1 ∧
    lsq_solve (fun _ _ => []) 2 [[1, 0], [0, 1], [1, 1]]
      [some 1, some 2, none] 5 5 10 = none :=
  ⟨by decide, by decide,
   lsq_solve_underdetermined_unbound (fun _ _ => []) 2
     [[1, 0], [0, 1], [1, 1]] [some 1, some 2, none] 5 5 10
     (by decide) (by decide)⟩

theorem ccAssign_length (obs : List CcObs) (hb : List Rat) (g : Int) (v : Rat)
    (h : hb.length = obs.length) : (ccAssign obs hb g v).length = obs.length := by
  unfold ccAssign
  rw [List.length_map, List.length_zip, h, Nat.min_self]

theorem ccAssign_getD (obs : List CcObs) (hb : List Rat) (g : Int) (v : Rat)
    (j : Nat) (h : hb.length = obs.length) (hj : j < obs.length) :
    (ccAssign obs hb g v).getD j 0 =
      if (obs.getD j ⟨0, none, none⟩).g == some g then v
      else hb.getD j 0 := by
  induction obs generalizing hb j with
  | nil => simp at hj
  | cons o os ih =>
    cases hb with
    | nil => simp at h
    | cons b bs =>
      cases j with
      | zero => simp [ccAssign]
      | succ n =>
        have := ih bs n (by simpa using h) (by simpa using hj)
        simpa [ccAssign] using this

theorem getD_map_zero (obs : List CcObs) (j : Nat) :
    (obs.map (fun _ => (0 : Rat))).getD j 0 = 0 := by
  induction obs generalizing j with
  | nil => rfl
  | cons o os ih => cases j <;> simp [*]

theorem ccAssign3_getD (obs : List CcObs) (v1 v2 v3 : Rat) (j : Nat)
    (hj : j < obs.length) :
    (ccAssign obs (ccAssign obs (ccAssign obs
        (obs.map (fun _ => (0 : Rat))) 1 v1) 2 v2) 3 v3).getD j 0 =
      (if (obs.getD j ⟨0, none, none⟩).g == some 3 then v3
       else if (obs.getD j ⟨0, none, none⟩).g == some 2 then v2
       else if (obs.getD j ⟨0, none, none⟩).g == some 1 then v1 else 0) := by
  have l0 : (obs.map (fun _ => (0 : Rat))).length = obs.length := by simp
  have l1 := ccAssign_length obs (obs.map (fun _ => (0 : Rat))) 1 v1 l0
  have l2 := ccAssign_length obs
    (ccAssign obs (obs.map (fun _ => (0 : Rat))) 1 v1) 2 v2 l1
  rw [ccAssign_getD _ _ _ _ _ l2 hj, ccAssign_getD _ _ _ _ _ l1 hj,
    ccAssign_getD _ _ _ _ _ l0 hj, getD_map_zero]

/-- C3: when the three overlap rules, taken in their fixed calendar order,
resolve to the ungated offsets +2, +3 and -1, the chained ledger of
`cross_calibrate` assigns the corrections 0, +2, +5 and +4 (the cumulative
sums in rule order) to the observations of the four sensor-era groups. -/
theorem cross_calibrate_chaining (obs : List CcObs)
    (h0 : ccRuleDiff obs 0 = 2) (h1 : ccRuleDiff obs 1 = 3)
    (h2 : ccRuleDiff obs 2 = -1) (j : Nat) (hj : j < obs.length) :
    (cross_calibrate obs).1.getD j 0 =
      (if (obs.getD j ⟨0, none, none⟩).g = some 1 then 2
       else if (obs.getD j ⟨0, none, none⟩).g = some 2 then 5
       else if (obs.getD j ⟨0, none, none⟩).g = some 3 then 4 else 0) := by
  unfold cross_calibrate
  simp only [List.foldl_cons, List.foldl_nil, h0, h1, h2]
  have hpairs1 : (ccPairs.getD 0 (0, 0)).1 = 1 := by decide
  have hpairs2 : (ccPairs.getD 1 (0, 0)).1 = 2 := by decide
  have hpairs3 : (ccPairs.getD 2 (0, 0)).1 = 3 := by decide
  rw [hpairs1, hpairs2, hpairs3, ccAssign3_getD obs _ _ _ j hj]
  have e1 : (0 : Rat) + 2 + 3 + -1 = 4 := by norm_num
  have e2 : (0 : Rat) + 2 + 3 = 5 := by norm_num
  have e3 : (0 : Rat) + 2 = 2 := by norm_num
  rw [e1, e2, e3]
  by_cases hA : (obs.getD j ⟨0, none, none⟩).g = some 3 <;>
    by_cases hB : (obs.getD j ⟨0, none, none⟩).g = some 2 <;>
    by_cases hC : (obs.getD j ⟨0, none, none⟩).g = some 1 <;>
    simp_all

/-- Concrete input realizing the hypotheses of the chaining theorem: two
populated monthly bins per group inside each overlap window, with constant
residual differences +2, +3 and -1 in the three windows. -/
def ccObsW : List CcObs :=
  [⟨23946 / 12, some 2, some 1⟩, ⟨23947 / 12, some 2, some 1⟩,
   ⟨23946 / 12, some 0, some 0⟩, ⟨23947 / 12, some 0, some 0⟩,
   ⟨24036 / 12, some 3, some 2⟩, ⟨24037 / 12, some 3, some 2⟩,
   ⟨24036 / 12, some 0, some 1⟩, ⟨24037 / 12, some 0, some 1⟩,
   ⟨24126 / 12, some (-1), some 3⟩, ⟨24127 / 12, some (-1), some 3⟩,
   ⟨24126 / 12, some 0, some 2⟩, ⟨24127 / 12, some 0, some 2⟩]

theorem cross_calibrate_chaining_witness :
    (ccRuleDiff ccObsW 0 = 2 ∧ ccRuleDiff ccObsW 1 = 3 ∧
     ccRuleDiff ccObsW 2 = -1 ∧ 0 < ccObsW.length) ∧
    (cross_calibrate ccObsW).1.getD 0 0 =
      (if (ccObsW.getD 0 ⟨0, none, none⟩).g = some 1 then 2
       else if (ccObsW.getD 0 ⟨0, none, none⟩).g = some 2 then 5
       else if (ccObsW.getD 0 ⟨0, none, none⟩).g = some 3 then 4 else 0) :=
  ⟨⟨by with_unfolding_all rfl, by with_unfolding_all rfl,
    by with_unfolding_all rfl, by decide⟩,
   cross_calibrate_chaining ccObsW (by with_unfolding_all rfl)
     (by with_unfolding_all rfl) (by with_unfolding_all rfl) 0 (by decide)⟩

/-- Concrete input for the bin-count gate of the first overlap rule: the
first group of the pair has three populated monthly bins while the second
group has exactly one. -/
def ccObsBug : List CcObs :=
  [⟨23946 / 12, some 5, some 1⟩, ⟨23947 / 12, some 5, some 1⟩,
   ⟨47893 / 24, some 2, some 0⟩]

/-- C4: an overlap window in which the second sensor-era group of the rule
pair has exactly one populated monthly bin is not gated: the resolved
offset is 3 (not zero) and the success counter increments, because the
source computes the bin count `n1` of the second group under the NaN mask
of the first (`n1 = len(b1[~np.isnan(b0)])`). -/
theorem cross_calibrate_single_bin_not_gated :
    (ccRuleBins ccObsBug 0).map (fun b => countSome b.2) = some 1 ∧
    (ccRuleBins ccObsBug 0).map (fun b => countSome b.1) = some 3 ∧
    ccRuleDiff ccObsBug 0 = 3 ∧
    (cross_calibrate ccObsBug).2 = 1 := by
  refine ⟨by with_unfolding_all rfl, by with_unfolding_all rfl,
    by with_unfolding_all rfl, by with_unfolding_all rfl⟩

/-- C6: the seasonal correction of `normalize_seasonal` is exactly zero for
every observation whose mission id is below 3 (the reference class), and
for every observation whose mission has a defined squared seasonal
amplitude strictly below the defined squared reference amplitude (the
Euclidean amplitudes compare the same way as their squares); in
particular a weaker-than-reference seasonal signal is never rescaled. -/
theorem normalize_seasonal_zero (coefR : Option Rat × Option Rat)
    (coefM : Nat → Option Rat × Option Rat) (obs : List SeasObs) (j : Nat)
    (hj : j < obs.length)
    (h : (obs.getD j ⟨0, 0⟩).g < 3 ∨
      (∃ r s, ampSq coefR = some r ∧
        ampSq (coefM (obs.getD j ⟨0, 0⟩).g) = some s ∧ s < r)) :
    (normalize_seasonal coefR coefM obs).getD j
      (SeasCorr.term ⟨none, none, none, none, 0⟩) = SeasCorr.zero := by
  unfold normalize_seasonal
  rw [getD_map_of_lt _ _ j _ ⟨0, 0⟩ hj]
  by_cases hg : (obs.getD j ⟨0, 0⟩).g < 3
  · rw [if_pos hg]
  · rw [if_neg hg]
    rcases h with hgl | ⟨r, s, hr, hs, hlt⟩
    · exact absurd hgl hg
    · rw [hr, hs]
      simp [seasGate, hlt]

theorem normalize_seasonal_zero_witness :
    (0 < ([⟨5, 1997⟩] : List SeasObs).length ∧
      (((([⟨5, 1997⟩] : List SeasObs).getD 0 ⟨0, 0⟩).g < 3) ∨
        (∃ r s, ampSq (some 3, some 4) = some r ∧
          ampSq ((fun _ => (some 0, some 1)) ((([⟨5, 1997⟩] : List SeasObs).getD 0 ⟨0, 0⟩).g)) = some s ∧
          s < r))) ∧
    (normalize_seasonal (some 3, some 4) (fun _ => (some 0, some 1))
      [⟨5, 1997⟩]).getD 0 (SeasCorr.term ⟨none, none, none, none, 0⟩) =
      SeasCorr.zero :=
  ⟨⟨by decide,
    Or.inr ⟨25, 1, by with_unfolding_all rfl, by with_unfolding_all rfl,
      by norm_num⟩⟩,
   normalize_seasonal_zero (some 3, some 4) (fun _ => (some 0, some 1))
     [⟨5, 1997⟩] 0 (by decide)
     (Or.inr ⟨25, 1, by with_unfolding_all rfl, by with_unfolding_all rfl,
       by norm_num⟩)⟩

theorem arange_length (a b d : Rat) : (arange a b d).length = arangeLen a b d := by
  unfold arange
  rw [List.length_map, List.length_range]

theorem arange_getD (a b d : Rat) (i : Nat) (hi : i < arangeLen a b d) :
    (arange a b d).getD i 0 = a + (i : Rat) * d := by
  unfold arange
  exact range_map_getD _ _ _ _ hi

theorem arangeLen_pos (a b d : Rat) (hd : 0 < d) (hab : a < b) :
    0 < arangeLen a b d := by
  have h : (0 : Int) < ⌈(b - a) / d⌉ :=
    Int.ceil_pos.mpr (div_pos (by linarith) hd)
  unfold arangeLen
  omega

theorem arange_lt_stop (a b d : Rat) (hd : 0 < d) (i : Nat)
    (hi : i < arangeLen a b d) : a + (i : Rat) * d < b := by
  unfold arangeLen at hi
  have h1 : (i : Int) + 1 ≤ ⌈(b - a) / d⌉ := by omega
  have h2 : ((i : Rat) + 1) ≤ ((⌈(b - a) / d⌉ : Int) : Rat) := by
    exact_mod_cast h1
  have h3 : ((⌈(b - a) / d⌉ : Int) : Rat) < (b - a) / d + 1 :=
    Int.ceil_lt_add_one _
  have h4 : (i : Rat) < (b - a) / d := by linarith
  have h5 : (i : Rat) * d < ((b - a) / d) * d :=
    mul_lt_mul_of_pos_right h4 hd
  rw [div_mul_cancel₀ _ (ne_of_gt hd)] at h5
  linarith

theorem binning2Cell_empty (weight : Option (Rat → Rat)) (median : Bool)
    (x : List Rat) (y : List (Option Rat)) (window t1 : Rat)
    (hsel : (x.zip y).filter (fun p =>
      decide (t1 ≤ p.1) && decide (p.1 ≤ t1 + window)) = []) :
    binning2Cell weight median x y window t1 =
      ((t1 + (t1 + window)) / 2, none, none, none, none) := by
  unfold binning2Cell
  dsimp only
  rw [hsel]
  rfl

/-- C5: for `xmin < xmax` and a positive step, `binning2` without
interpolation returns exactly one entry per step of
`np.arange(xmin, xmax, dx)` in all five outputs; every step lies in
`[xmin, xmax)`; and a step whose window `[step, step + window]` contains
no observation time keeps a missing value while still recording the bin
center `step + window/2`. -/
theorem binning2_entry_per_step (weight : Option (Rat → Rat)) (median : Bool)
    (x : List Rat) (y : List (Option Rat)) (xmin xmax dx window : Rat)
    (hdx : 0 < dx) (hlt : xmin < xmax) :
    (binning2 weight median x y xmin xmax dx window).xb.length =
      (arange xmin xmax dx).length ∧
    (binning2 weight median x y xmin xmax dx window).yb.length =
      (arange xmin xmax dx).length ∧
    (binning2 weight median x y xmin xmax dx window).eb.length =
      (arange xmin xmax dx).length ∧
    (binning2 weight median x y xmin xmax dx window).nb.length =
      (arange xmin xmax dx).length ∧
    (binning2 weight median x y xmin xmax dx window).sb.length =
      (arange xmin xmax dx).length ∧
    0 < (arange xmin xmax dx).length ∧
    (∀ i, i < (arange xmin xmax dx).length →
      xmin ≤ (arange xmin xmax dx).getD i 0 ∧
      (arange xmin xmax dx).getD i 0 < xmax) ∧
    (∀ i, i < (arange xmin xmax dx).length →
      (∀ t ∈ x, ¬((arange xmin xmax dx).getD i 0 ≤ t ∧
        t ≤ (arange xmin xmax dx).getD i 0 + window)) →
      (binning2 weight median x y xmin xmax dx window).yb.getD i (some 0) =
        none ∧
      (binning2 weight median x y xmin xmax dx window).xb.getD i 0 =
        (arange xmin xmax dx).getD i 0 + window / 2) := by
  refine ⟨by simp [binning2], by simp [binning2], by simp [binning2],
    by simp [binning2], by simp [binning2], ?_, ?_, ?_⟩
  · rw [arange_length]
    exact arangeLen_pos xmin xmax dx hdx hlt
  · intro i hi
    rw [arange_length] at hi
    rw [arange_getD _ _ _ i hi]
    constructor
    · have : 0 ≤ (i : Rat) * dx :=
        mul_nonneg (Nat.cast_nonneg i) (le_of_lt hdx)
      linarith
    · exact arange_lt_stop xmin xmax dx hdx i hi
  · intro i hi hempty
    have hi' : i < (arange xmin xmax dx).length := hi
    have hsel : ((x.zip y).filter (fun p =>
        decide ((arange xmin xmax dx).getD i 0 ≤ p.1) &&
        decide (p.1 ≤ (arange xmin xmax dx).getD i 0 + window))) = [] := by
      apply List.filter_eq_nil_iff.mpr
      intro p hp
      have hx := (List.of_mem_zip hp).1
      have hnp := hempty p.1 hx
      simp only [Bool.and_eq_true, decide_eq_true_eq]
      tauto
    have hcell := binning2Cell_empty weight median x y window
      ((arange xmin xmax dx).getD i 0) hsel
    constructor
    · show (binning2 weight median x y xmin xmax dx window).yb.getD i
        (some 0) = none
      unfold binning2
      dsimp only
      rw [getD_map_of_lt _ _ i (some 0) 0 hi', hcell]
    · show (binning2 weight median x y xmin xmax dx window).xb.getD i 0 =
        (arange xmin xmax dx).getD i 0 + window / 2
      unfold binning2
      dsimp only
      rw [getD_map_of_lt _ _ i 0 0 hi', hcell]
      ring

theorem binning2_entry_per_step_witness :
    (0 < (1 / 12 : Rat) ∧ (0 : Rat) < 1 / 4) ∧
    ((binning2 none false [1 / 24] [some 5] 0 (1 / 4) (1 / 12) (3 / 12)).xb.length =
        (arange 0 (1 / 4) (1 / 12)).length ∧
      (binning2 none false [1 / 24] [some 5] 0 (1 / 4) (1 / 12) (3 / 12)).yb.length =
        (arange 0 (1 / 4) (1 / 12)).length ∧
      (binning2 none false [1 / 24] [some 5] 0 (1 / 4) (1 / 12) (3 / 12)).eb.length =
        (arange 0 (1 / 4) (1 / 12)).length ∧
      (binning2 none false [1 / 24] [some 5] 0 (1 / 4) (1 / 12) (3 / 12)).nb.length =
        (arange 0 (1 / 4) (1 / 12)).length ∧
      (binning2 none false [1 / 24] [some 5] 0 (1 / 4) (1 / 12) (3 / 12)).sb.length =
        (arange 0 (1 / 4) (1 / 12)).length ∧
      0 < (arange 0 (1 / 4) (1 / 12)).length ∧
      (∀ i, i < (arange 0 (1 / 4) (1 / 12)).length →
        (0 : Rat) ≤ (arange 0 (1 / 4) (1 / 12)).getD i 0 ∧
        (arange 0 (1 / 4) (1 / 12)).getD i 0 < 1 / 4) ∧
      (∀ i, i < (arange 0 (1 / 4) (1 / 12)).length →
        (∀ t ∈ [(1 / 24 : Rat)],
          ¬((arange 0 (1 / 4) (1 / 12)).getD i 0 ≤ t ∧
            t ≤ (arange 0 (1 / 4) (1 / 12)).getD i 0 + 3 / 12)) →
        (binning2 none false [1 / 24] [some 5] 0 (1 / 4) (1 / 12)
          (3 / 12)).yb.getD i (some 0) = none ∧
        (binning2 none false [1 / 24] [some 5] 0 (1 / 4) (1 / 12)
          (3 / 12)).xb.getD i 0 =
          (arange 0 (1 / 4) (1 / 12)).getD i 0 + (3 / 12) / 2)) :=
  ⟨⟨by norm_num, by norm_num⟩,
   binning2_entry_per_step none false [1 / 24] [some 5] 0 (1 / 4) (1 / 12)
     (3 / 12) (by norm_num) (by norm_num)⟩

theorem binning_yb_getD (x : List Rat) (y : List (Option Rat))
    (xmin xmax dx : Rat) (i : Nat) (d : Option Rat)
    (hi : i < (arange xmin (xmax + dx) dx).length - 1) :
    (binning x y xmin xmax dx).yb.getD i d =
      (binningCell x y ((arange xmin (xmax + dx) dx).getD i 0)
        ((arange xmin (xmax + dx) dx).getD (i + 1) 0)).1 := by
  unfold binning
  dsimp only
  exact range_map_getD _ _ _ _ hi

theorem binning_ebSq_getD (x : List Rat) (y : List (Option Rat))
    (xmin xmax dx : Rat) (i : Nat) (d : Option Rat)
    (hi : i < (arange xmin (xmax + dx) dx).length - 1) :
    (binning x y xmin xmax dx).ebSq.getD i d =
      (binningCell x y ((arange xmin (xmax + dx) dx).getD i 0)
        ((arange xmin (xmax + dx) dx).getD (i + 1) 0)).2.1 := by
  unfold binning
  dsimp only
  exact range_map_getD _ _ _ _ hi

theorem binning_nb_getD (x : List Rat) (y : List (Option Rat))
    (xmin xmax dx : Rat) (i : Nat) (d : Option Rat)
    (hi : i < (arange xmin (xmax + dx) dx).length - 1) :
    (binning x y xmin xmax dx).nb.getD i d =
      (binningCell x y ((arange xmin (xmax + dx) dx).getD i 0)
        ((arange xmin (xmax + dx) dx).getD (i + 1) 0)).2.2.1 := by
  unfold binning
  dsimp only
  exact range_map_getD _ _ _ _ hi

theorem binning_sb_getD (x : List Rat) (y : List (Option Rat))
    (xmin xmax dx : Rat) (i : Nat) (d : Option Rat)
    (hi : i < (arange xmin (xmax + dx) dx).length - 1) :
    (binning x y xmin xmax dx).sb.getD i d =
      (binningCell x y ((arange xmin (xmax + dx) dx).getD i 0)
        ((arange xmin (xmax + dx) dx).getD (i + 1) 0)).2.2.2 := by
  unfold binning
  dsimp only
  exact range_map_getD _ _ _ _ hi

theorem binningCell_of_ne_nil (x : List Rat) (y : List (Option Rat))
    (lo hi : Rat) (h : binMembers x y lo hi ≠ []) :
    binningCell x y lo hi =
      (nanmedian (binMembers x y lo hi), nanvar (binMembers x y lo hi),
       some (((binMembers x y lo hi).length : Rat)),
       sumOpt (binMembers x y lo hi)) := by
  unfold binningCell
  dsimp only
  rw [if_neg (by simpa using h)]

theorem binningCell_of_nil (x : List Rat) (y : List (Option Rat))
    (lo hi : Rat) (h : binMembers x y lo hi = []) :
    binningCell x y lo hi = (none, none, none, none) := by
  unfold binningCell
  dsimp only
  rw [h]
  rfl

/-- C7 counterexample: on x = [0, 1, 2], y = [0, 4, 7] over [0, 2] with
dx = 1 the two bins are the closed intervals [0, 1] and [1, 2], so the
observation sitting on the shared edge 1 is a member of both bins (the
bins are not disjoint: three inputs produce the counts [2, 2]), and the
per-bin spread is the conventional nanstd, not the MAD-based robust std:
the first bin holds the values {0, 4} with variance 4 (nanstd 2), while
`mad_std` of the same values is 7413/2500 = 2.9652, whose square is not
4. -/
theorem binning_counterexample :
    (binning [0, 1, 2] [some 0, some 4, some 7] 0 2 1).nb =
      [some 2, some 2] ∧
    [(0 : Rat), 1, 2].length = 3 ∧
    binMembers [0, 1, 2] [some 0, some 4, some 7]
      ((arange 0 (2 + 1) 1).getD 0 0) ((arange 0 (2 + 1) 1).getD 1 0) =
      [some 0, some 4] ∧
    binMembers [0, 1, 2] [some 0, some 4, some 7]
      ((arange 0 (2 + 1) 1).getD 1 0) ((arange 0 (2 + 1) 1).getD 2 0) =
      [some 4, some 7] ∧
    (binning [0, 1, 2] [some 0, some 4, some 7] 0 2 1).ebSq =
      [some 4, some (9 / 4)] ∧
    mad_std [some 0, some 4] = some (7413 / 2500) ∧
    ¬((7413 / 2500 : Rat) ^ 2 = 4) := by
  refine ⟨by with_unfolding_all rfl, by with_unfolding_all rfl,
    by with_unfolding_all rfl, by with_unfolding_all rfl,
    by with_unfolding_all rfl, by with_unfolding_all rfl, by norm_num⟩

/-- C7 amended: `binning` lays bins of equal width `dx` between the
consecutive edges of `np.arange(xmin, xmax + dx, dx)`, each bin the closed
interval between its two edges, so that adjacent bins share their boundary
point and a value sitting exactly on a shared edge is counted in both; for
each non-empty bin it returns the nanmedian, the conventional nanstd
(carried through its square, not the MAD-based robust std), the raw count
and the sum of the contained rows, while an empty bin stays missing. -/
theorem binning_amended (x : List Rat) (y : List (Option Rat))
    (xmin xmax dx : Rat) :
    (∀ i, i + 1 < (arange xmin (xmax + dx) dx).length →
      (arange xmin (xmax + dx) dx).getD (i + 1) 0 -
        (arange xmin (xmax + dx) dx).getD i 0 = dx) ∧
    (binning x y xmin xmax dx).yb.length =
      (arange xmin (xmax + dx) dx).length - 1 ∧
    (∀ i, i < (arange xmin (xmax + dx) dx).length - 1 →
      (binMembers x y ((arange xmin (xmax + dx) dx).getD i 0)
          ((arange xmin (xmax + dx) dx).getD (i + 1) 0) ≠ [] →
        (binning x y xmin xmax dx).yb.getD i none =
          nanmedian (binMembers x y
            ((arange xmin (xmax + dx) dx).getD i 0)
            ((arange xmin (xmax + dx) dx).getD (i + 1) 0)) ∧
        (binning x y xmin xmax dx).ebSq.getD i none =
          nanvar (binMembers x y
            ((arange xmin (xmax + dx) dx).getD i 0)
            ((arange xmin (xmax + dx) dx).getD (i + 1) 0)) ∧
        (binning x y xmin xmax dx).nb.getD i none =
          some (((binMembers x y
            ((arange xmin (xmax + dx) dx).getD i 0)
            ((arange xmin (xmax + dx) dx).getD (i + 1) 0)).length : Rat)) ∧
        (binning x y xmin xmax dx).sb.getD i none =
          sumOpt (binMembers x y
            ((arange xmin (xmax + dx) dx).getD i 0)
            ((arange xmin (xmax + dx) dx).getD (i + 1) 0))) ∧
      (binMembers x y ((arange xmin (xmax + dx) dx).getD i 0)
          ((arange xmin (xmax + dx) dx).getD (i + 1) 0) = [] →
        (binning x y xmin xmax dx).yb.getD i (some 0) = none)) := by
  refine ⟨?_, ?_, ?_⟩
  · intro i hi
    rw [arange_length] at hi
    rw [arange_getD _ _ _ (i + 1) hi,
      arange_getD _ _ _ i (Nat.lt_of_succ_lt hi)]
    push_cast
    ring
  · unfold binning
    dsimp only
    rw [List.length_map, List.length_range]
  · intro i hi
    constructor
    · intro hne
      rw [binning_yb_getD x y xmin xmax dx i none hi,
        binning_ebSq_getD x y xmin xmax dx i none hi,
        binning_nb_getD x y xmin xmax dx i none hi,
        binning_sb_getD x y xmin xmax dx i none hi,
        binningCell_of_ne_nil _ _ _ _ hne]
      exact ⟨rfl, rfl, rfl, rfl⟩
    · intro hnil
      rw [binning_yb_getD x y xmin xmax dx i (some 0) hi,
        binningCell_of_nil _ _ _ _ hnil]

theorem coverage_gate_amended_witness :
    cellProceeds (cellStats [1992, 1993] [1, 1]) 2 0 =
      (decide (2 ≤ (cellStats [1992, 1993] [1, 1]).nobs) &&
       decide ((0 : Rat) ≤ (cellStats [1992, 1993] [1, 1]).dt)) :=
  coverage_gate_amended [1992, 1993] [1, 1] 2 0

theorem binning_amended_witness :
    (binning [0, 1, 2] [some 0, some 4, some 7] 0 2 1).yb.getD 0 none =
      nanmedian (binMembers [0, 1, 2] [some 0, some 4, some 7]
        ((arange 0 (2 + 1) 1).getD 0 0) ((arange 0 (2 + 1) 1).getD 1 0)) := by
  have hl : (arange (0 : Rat) (2 + 1) 1).length = 3 := by
    with_unfolding_all rfl
  have hm : binMembers [0, 1, 2] [some 0, some 4, some 7]
      ((arange 0 (2 + 1) 1).getD 0 0) ((arange 0 (2 + 1) 1).getD (0 + 1) 0) =
      [some 0, some 4] := by
    with_unfolding_all rfl
  have h := (binning_amended [0, 1, 2] [some 0, some 4, some 7] 0 2 1).2.2 0
    (by rw [hl]; norm_num)
  refine (h.1 ?_).1
  rw [hm]
  intro hc
  cases hc
